import Mathlib

/-!
Verification of the broker / worker-pool core of a chunked video-encoding
pipeline (src/av1an-core/src/broker.rs), as a shallow embedding in Lean 4.

External collaborators (the encoder process behind `create_pipes`, the
frame-count oracle `ffmpeg::num_frames`, the quality-routing routine, the
OS affinity call, the serde serializer of the done-map) are modelled as
explicit parameters or value-level state, following the conventions noted
on each definition.
-/

deriving instance DecidableEq for Except

namespace Av1anBroker

/-- Result of one invocation of the external encode collaborator
(`EncodeArgs::create_pipes`): success, or failure carrying the exit status
and the captured output text. -/
inductive EncResult where
  | ok : EncResult
  | err (status : Int) (output : String) : EncResult
deriving DecidableEq

/-- Boolean success test for an `EncResult`. -/
def isOkE : EncResult → Bool
  | EncResult.ok => true
  | EncResult.err _ _ => false

/-- Captured output text of a failed `EncResult` (empty for success). -/
def errOutput : EncResult → String
  | EncResult.ok => ""
  | EncResult.err _ o => o

/-- The retry budget per pass, `const MAX_TRIES: usize = 3` in
`Broker::encode_chunk`. -/
def MAX_TRIES : Nat := 3

/-- Boolean success test for the pipeline result type
(`Result<(), String>` in the source). -/
def resOk : Except String Unit → Bool
  | Except.ok _ => true
  | Except.error _ => false

/-- Retry loop of `Broker::encode_chunk` for a single pass
(`for try in 1..=MAX_TRIES`). `pipes t` is the outcome of the t-th
invocation of the external encode collaborator for this pass; `t` is the
1-based try counter and `fuel` counts the remaining loop iterations
(the loop is entered with `t = 1, fuel = MAX_TRIES`, keeping the
invariant `t + fuel = MAX_TRIES + 1`; the `fuel = 0` base case is
unreachable from that entry because the source returns at
`try == MAX_TRIES`). Returns the list of tries actually invoked and the
loop outcome: `Except.error output` exactly on the source path
`if try == MAX_TRIES { return Err(output) }`, where `output` is the
captured output of the failing invocation; success on the `break` path. -/
def runPassTries (pipes : Nat → EncResult) : Nat → Nat → List Nat × Except String Unit
  | _, 0 => ([], Except.ok ())
  | t, fuel + 1 =>
    match pipes t with
    | EncResult.ok => ([t], Except.ok ())
    | EncResult.err _ output =>
      if t = MAX_TRIES then ([t], Except.error output)
      else
        let rest := runPassTries pipes (t + 1) fuel
        (t :: rest.1, rest.2)

/-- Boolean test: the retry loop for one pass (with the full
`MAX_TRIES` budget) ends in success for the per-try outcomes `f`. -/
def passOkB (f : Nat → EncResult) : Bool :=
  resOk (runPassTries f 1 MAX_TRIES).2

/-- Pass loop of `Broker::encode_chunk`
(`for current_pass in 1..=passes`), with an early `return Err(output)`
out of the whole loop when a pass exhausts its retries. `pipes p t` is
the outcome of the t-th encode invocation of pass `p`; `p` is the 1-based
pass counter and `fuel` the number of remaining passes. Returns the full
trace of collaborator invocations as `(pass, try)` pairs together with
the loop outcome. -/
def runPassLoop (pipes : Nat → Nat → EncResult) : Nat → Nat → List (Nat × Nat) × Except String Unit
  | _, 0 => ([], Except.ok ())
  | p, fuel + 1 =>
    let pr := runPassTries (pipes p) 1 MAX_TRIES
    match pr.2 with
    | Except.error out => (pr.1.map (fun t => (p, t)), Except.error out)
    | Except.ok _ =>
      let rest := runPassLoop pipes (p + 1) fuel
      (pr.1.map (fun t => (p, t)) ++ rest.1, rest.2)

/-- The complete pass loop of `Broker::encode_chunk`: passes
`1..=passes`. -/
def runAllPasses (pipes : Nat → Nat → EncResult) (passes : Nat) :
    List (Nat × Nat) × Except String Unit :=
  runPassLoop pipes 1 passes

/-- Tries recorded in an invocation trace for a given pass `p`. -/
def passTrace (tr : List (Nat × Nat)) (p : Nat) : List Nat :=
  (tr.filter (fun e => e.1 == p)).map (fun e => e.2)

/-- Number of cores assigned per worker, from `Broker::encode_chunk`:
`(num_cpus::get() as f32 / self.project.workers as f32).ceil() as usize`.
The source computes the ceiling through `f32` division; for the
magnitudes of physical core and worker counts (far below 2^24) that is
exactly the ceiling division on naturals embedded here. -/
def cores_per_worker (total_cores workers : Nat) : Nat :=
  (total_cores + workers - 1) / workers

/-- Raw core-index window of a worker and its wrap-around, from the loop
`for i in start..end { cpu_set.set(i % self.project.workers) }` in
`Broker::encode_chunk`, with `start = worker_id * cores_per_worker` and
`end = start + cores_per_worker`. The list holds the arguments passed to
`CpuSet::set`, in loop order. -/
def affinityCores (total_cores workers worker_id : Nat) : List Nat :=
  (List.range' (worker_id * cores_per_worker total_cores workers)
      (cores_per_worker total_cores workers)).map (fun i => i % workers)

/-- The CPU set handed to `sched_setaffinity`: the set of bits set by the
loop of `Broker::encode_chunk`, i.e. the elements of `affinityCores`. -/
def cpuSetFor (total_cores workers worker_id : Nat) : Finset Nat :=
  (affinityCores total_cores workers worker_id).toFinset

/-- Affinity set spelled the way the specification words it: the image of
the raw window `[worker_id * cpw, worker_id * cpw + cpw)` under
`i mod workers`, with `cpw = ceil(total_cores / workers)`. Kept as a
separate definition so the planner of the source can be proved equal to
it. -/
def specAffinitySet (total_cores workers worker_id : Nat) : Finset Nat :=
  Finset.image (fun i => i % workers)
    (Finset.Ico (worker_id * cores_per_worker total_cores workers)
      (worker_id * cores_per_worker total_cores workers + cores_per_worker total_cores workers))

/-- A unit of work, `crate::Chunk`. Only the fields the broker reads are
embedded: the log identity `index`, the expected frame count `frames`,
and the checkpoint key `name` (the source calls the method
`chunk.name()`; its value is embedded as a field). The output path is
only ever handed to the external frame-count oracle, which is a
parameter here, so it is not represented. -/
structure Chunk where
  index : Nat
  frames : Nat
  name : String
deriving DecidableEq

/-- Insert into the shared done-map (`get_done().done.insert(name, v)`,
a concurrent map living outside src; modelled from the spec as a mapping
from chunk name to frame count, with insert replacing any previous
binding for the key). -/
def insertDone (m : List (String × Nat)) (k : String) (v : Nat) : List (String × Nat) :=
  (k, v) :: m.filter (fun e => !(e.1 == k))

/-- Lookup in the done-map. -/
def lookupDone (m : List (String × Nat)) (k : String) : Option Nat :=
  (m.find? (fun e => e.1 == k)).map (fun e => e.2)

/-- Shared checkpoint state: the in-memory done-map (`get_done().done`)
and the on-disk checkpoint file `done.json`. The file is modelled from
the spec at the value level: the source writes
`serde_json::to_string(get_done())` wholesale into a freshly created
file, so the file is embedded as the mapping it holds (`none` before the
first write), abstracting the external serde codec. -/
structure DoneState where
  done : List (String × Nat)
  fileOnDisk : Option (List (String × Nat))
deriving DecidableEq

/-- Observable side effects of `Broker::encode_chunk`, in program order:
the `sched_setaffinity` call (with the mask it applies), each invocation
of the external encode collaborator, and the checkpoint write. -/
inductive BrokerEvent where
  | setAffinity (mask : List Nat)
  | encodeCall (pass : Nat) (attempt : Nat)
  | checkpointWrite (name : String) (frames : Nat)
deriving DecidableEq

/-- Test for the affinity-application event. -/
def isSetAffinity : BrokerEvent → Bool
  | BrokerEvent.setAffinity _ => true
  | _ => false

/-- Test for an encode-collaborator invocation event. -/
def isEncodeCall : BrokerEvent → Bool
  | BrokerEvent.encodeCall _ _ => true
  | _ => false

/-- Number of `sched_setaffinity` applications recorded in an event
trace. -/
def countAffinity (evs : List BrokerEvent) : Nat :=
  (evs.filter isSetAffinity).length

/-- Result of one run of `Broker::encode_chunk` on one chunk: the
checkpoint state after the run, the returned `Result<(), String>`, and
the trace of observable side effects. -/
structure ChunkRunResult where
  state : DoneState
  result : Except String Unit
  events : List BrokerEvent
deriving DecidableEq

/-- Frame verification, `Broker::frame_check_output`: returns the
frame count produced by the external oracle unchanged; a mismatch with
the expected count is only logged as a warning. An oracle fault
(`ffmpeg::num_frames(..).unwrap()`) aborts the process and is outside
the `Result`-based control flow embedded here. -/
def frame_check_output (oracleFrames expected_frames : Nat) : Nat :=
  oracleFrames

/-- The per-chunk pipeline `Broker::encode_chunk`. Parameters stand for
the externals: `total_cores` for `num_cpus::get()`, `pipes p t` for the
outcome of the t-th invocation of `create_pipes` during pass `p`, and
`oracleFrames` for the value returned by the frame-count oracle on the
output of the chunk. The quality-routing collaborator is invoked
fire-and-forget before the pass loop and its outcome is not observed by
the scheduler, so it has no representation in the result. Logging and
wall-clock throughput reporting are omitted. -/
def encode_chunk (st : DoneState) (total_cores workers : Nat) (c : Chunk) (passes : Nat)
    (pipes : Nat → Nat → EncResult) (oracleFrames : Nat) (worker_id : Nat) : ChunkRunResult :=
  let affinityEv := BrokerEvent.setAffinity (affinityCores total_cores workers worker_id)
  let run := runAllPasses pipes passes
  let encodeEvs := run.1.map (fun e => BrokerEvent.encodeCall e.1 e.2)
  match run.2 with
  | Except.error out =>
    { state := st, result := Except.error out, events := affinityEv :: encodeEvs }
  | Except.ok _ =>
    let encoded_frames := frame_check_output oracleFrames c.frames
    if encoded_frames = c.frames then
      let newDone := insertDone st.done c.name encoded_frames
      { state := { done := newDone, fileOnDisk := some newDone },
        result := Except.ok (),
        events := affinityEv :: (encodeEvs ++ [BrokerEvent.checkpointWrite c.name encoded_frames]) }
    else
      { state := st, result := Except.ok (), events := affinityEv :: encodeEvs }

/-- Outcome of one worker thread body in `Broker::encoding_loop`:
final checkpoint state, the number of `tx.send(())` failure signals sent,
the concatenated event trace, the chunks left unreceived in the queue
when the loop stopped, and the number of chunks for which
`encode_chunk` was invoked. -/
structure WorkerOutcome where
  state : DoneState
  signalsSent : Nat
  events : List BrokerEvent
  leftover : List Chunk
  processed : Nat
deriving DecidableEq

/-- Body of one worker thread in `Broker::encoding_loop`
(`while let Ok(chunk) = rx.recv() { if encode_chunk(..).is_err() {
tx.send(()); return Err(()) } }`): on a pipeline error the worker sends
exactly one failure signal and returns, leaving the rest of the queue
untouched; on success it keeps receiving. `enc` is the per-chunk
pipeline acting on the shared checkpoint state; the queue is the list of
chunks this worker would receive in order. -/
def worker_loop (enc : DoneState → Chunk → ChunkRunResult) :
    DoneState → List Chunk → WorkerOutcome
  | st, [] => { state := st, signalsSent := 0, events := [], leftover := [], processed := 0 }
  | st, c :: rest =>
    let r := enc st c
    match r.result with
    | Except.error _ =>
      { state := r.state, signalsSent := 1, events := r.events, leftover := rest, processed := 1 }
    | Except.ok _ =>
      let w := worker_loop enc r.state rest
      { state := w.state, signalsSent := w.signalsSent, events := r.events ++ w.events,
        leftover := w.leftover, processed := w.processed + 1 }

/-- Verbosity setting read by the broker (`crate::Verbosity`). -/
inductive Verbosity where
  | quiet
  | normal
  | verbose
deriving DecidableEq

/-- Which progress-finish notification `Broker::encoding_loop` triggers
after the pool run. -/
inductive ProgressFinish where
  | noFinish
  | singleBar
  | multiBar
deriving DecidableEq

/-- Pool-level observable effects of `Broker::encoding_loop`: whether
the bounded crossbeam channel was created, how many worker threads were
spawned, and which progress-finish notification ran. -/
structure LoopRun where
  channelCreated : Bool
  workersSpawned : Nat
  finish : ProgressFinish
deriving DecidableEq

/-- Pool setup and teardown of `Broker::encoding_loop`: everything is
guarded by `if !self.chunk_queue.is_empty()`; inside the guard a bounded
channel sized to the queue is created, `workers` threads are spawned
(each running `worker_loop`), and after joining them the verbosity
branch runs `finish_progress_bar` (normal) or
`finish_multi_progress_bar` (verbose). -/
def encoding_loop (chunks : List Chunk) (workers : Nat) (verbosity : Verbosity) : LoopRun :=
  if chunks.isEmpty then
    { channelCreated := false, workersSpawned := 0, finish := ProgressFinish.noFinish }
  else
    { channelCreated := true, workersSpawned := workers,
      finish :=
        if verbosity = Verbosity.normal then ProgressFinish.singleBar
        else if verbosity = Verbosity.verbose then ProgressFinish.multiBar
        else ProgressFinish.noFinish }

section RetryLemmas

/-- Unfolding of the retry loop when the first try succeeds. -/
lemma runPass_ok1 (f : Nat → EncResult) (h1 : f 1 = EncResult.ok) :
    runPassTries f 1 MAX_TRIES = ([1], Except.ok ()) := by
  simp [runPassTries, MAX_TRIES, h1]

/-- Unfolding of the retry loop when the first try fails and the second
succeeds. -/
lemma runPass_ok2 (f : Nat → EncResult) (s1 : Int) (o1 : String)
    (h1 : f 1 = EncResult.err s1 o1) (h2 : f 2 = EncResult.ok) :
    runPassTries f 1 MAX_TRIES = ([1, 2], Except.ok ()) := by
  simp [runPassTries, MAX_TRIES, h1, h2]

/-- Unfolding of the retry loop when the first two tries fail and the
third succeeds. -/
lemma runPass_ok3 (f : Nat → EncResult) (s1 s2 : Int) (o1 o2 : String)
    (h1 : f 1 = EncResult.err s1 o1) (h2 : f 2 = EncResult.err s2 o2)
    (h3 : f 3 = EncResult.ok) :
    runPassTries f 1 MAX_TRIES = ([1, 2, 3], Except.ok ()) := by
  simp [runPassTries, MAX_TRIES, h1, h2, h3]

/-- Unfolding of the retry loop when all three tries fail: three
invocations, and the captured output of the third failure is the error
payload. -/
lemma runPass_fail (f : Nat → EncResult) (s1 s2 s3 : Int) (o1 o2 o3 : String)
    (h1 : f 1 = EncResult.err s1 o1) (h2 : f 2 = EncResult.err s2 o2)
    (h3 : f 3 = EncResult.err s3 o3) :
    runPassTries f 1 MAX_TRIES = ([1, 2, 3], Except.error o3) := by
  simp [runPassTries, MAX_TRIES, h1, h2, h3]

/-- A non-successful `EncResult` is an error with some payload. -/
lemma isOkE_false (x : EncResult) (h : isOkE x = false) :
    ∃ s o, x = EncResult.err s o := by
  cases x with
  | ok => simp [isOkE] at h
  | err s o => exact ⟨s, o, rfl⟩

/-- The retry loop fails exactly when all three tries fail. -/
lemma passOkB_false_iff (f : Nat → EncResult) :
    passOkB f = false ↔
      isOkE (f 1) = false ∧ isOkE (f 2) = false ∧ isOkE (f 3) = false := by
  cases h1 : f 1 with
  | ok => simp [passOkB, runPass_ok1 f h1, resOk, isOkE, h1]
  | err s1 o1 =>
    cases h2 : f 2 with
    | ok => simp [passOkB, runPass_ok2 f s1 o1 h1 h2, resOk, isOkE, h1, h2]
    | err s2 o2 =>
      cases h3 : f 3 with
      | ok => simp [passOkB, runPass_ok3 f s1 s2 o1 o2 h1 h2 h3, resOk, isOkE, h1, h2, h3]
      | err s3 o3 =>
        simp [passOkB, runPass_fail f s1 s2 s3 o1 o2 o3 h1 h2 h3, resOk, isOkE, h1, h2, h3]

/-- When all three tries fail, the retry loop makes exactly three
invocations and propagates the output of the third failure. -/
lemma runPass_allFail (f : Nat → EncResult)
    (h : ∀ t, 1 ≤ t → t ≤ MAX_TRIES → isOkE (f t) = false) :
    runPassTries f 1 MAX_TRIES = ([1, 2, 3], Except.error (errOutput (f 3))) := by
  obtain ⟨s1, o1, h1⟩ := isOkE_false _ (h 1 (by omega) (by simp [MAX_TRIES]))
  obtain ⟨s2, o2, h2⟩ := isOkE_false _ (h 2 (by omega) (by simp [MAX_TRIES]))
  obtain ⟨s3, o3, h3⟩ := isOkE_false _ (h 3 (by omega) (by simp [MAX_TRIES]))
  rw [runPass_fail f s1 s2 s3 o1 o2 o3 h1 h2 h3, h3]
  rfl

/-- When the k-th try is the first success (k within budget), the retry
loop makes exactly k invocations and succeeds. -/
lemma runPass_firstSuccess (f : Nat → EncResult) (k : Nat)
    (hk1 : 1 ≤ k) (hk3 : k ≤ MAX_TRIES)
    (hbefore : ∀ t, 1 ≤ t → t < k → isOkE (f t) = false)
    (hk : isOkE (f k) = true) :
    (runPassTries f 1 MAX_TRIES).1.length = k ∧ passOkB f = true := by
  have hMT : MAX_TRIES = 3 := rfl
  rw [hMT] at hk3
  have hok : f k = EncResult.ok := by
    cases hx : f k with
    | ok => rfl
    | err s o => rw [hx] at hk; simp [isOkE] at hk
  interval_cases k
  · rw [show (1 : Nat) = 1 from rfl] at hok
    simp [passOkB, runPass_ok1 f hok, resOk]
  · obtain ⟨s1, o1, h1⟩ := isOkE_false _ (hbefore 1 (by omega) (by omega))
    simp [passOkB, runPass_ok2 f s1 o1 h1 hok, resOk]
  · obtain ⟨s1, o1, h1⟩ := isOkE_false _ (hbefore 1 (by omega) (by omega))
    obtain ⟨s2, o2, h2⟩ := isOkE_false _ (hbefore 2 (by omega) (by omega))
    simp [passOkB, runPass_ok3 f s1 s2 o1 o2 h1 h2 hok, resOk]

/-- The retry loop never makes more invocations than its fuel. -/
lemma runPassTries_len (f : Nat → EncResult) :
    ∀ fuel t, (runPassTries f t fuel).1.length ≤ fuel := by
  intro fuel
  induction fuel with
  | zero => intro t; simp [runPassTries]
  | succ n ih =>
    intro t
    simp only [runPassTries]
    cases f t with
    | ok => simp
    | err s o =>
      by_cases ht : t = MAX_TRIES
      · simp [ht]
      · simpa [ht] using Nat.succ_le_succ (ih (t + 1))

/-- A successful pipeline result is literally `Except.ok ()`. -/
lemma resOk_true (x : Except String Unit) (h : resOk x = true) : x = Except.ok () := by
  cases x with
  | ok u => cases u; rfl
  | error e => simp [resOk] at h

/-- A failing pipeline result carries some error payload. -/
lemma resOk_false (x : Except String Unit) (h : resOk x = false) :
    ∃ o, x = Except.error o := by
  cases x with
  | ok u => simp [resOk] at h
  | error e => exact ⟨e, rfl⟩

end RetryLemmas

section PassLoopLemmas

/-- Unfolding of the pass loop when the current pass exhausts its
retries. -/
lemma runPassLoop_succ_err (pipes : Nat → Nat → EncResult) (p fuel : Nat) (o : String)
    (h : (runPassTries (pipes p) 1 MAX_TRIES).2 = Except.error o) :
    runPassLoop pipes p (fuel + 1) =
      ((runPassTries (pipes p) 1 MAX_TRIES).1.map (fun t => (p, t)), Except.error o) := by
  simp [runPassLoop, h]

/-- Unfolding of the pass loop when the current pass succeeds within
budget. -/
lemma runPassLoop_succ_ok (pipes : Nat → Nat → EncResult) (p fuel : Nat)
    (h : (runPassTries (pipes p) 1 MAX_TRIES).2 = Except.ok ()) :
    runPassLoop pipes p (fuel + 1) =
      ((runPassTries (pipes p) 1 MAX_TRIES).1.map (fun t => (p, t))
          ++ (runPassLoop pipes (p + 1) fuel).1,
        (runPassLoop pipes (p + 1) fuel).2) := by
  simp [runPassLoop, h]

/-- Per-pass trace of a concatenation of traces. -/
lemma passTrace_append (a b : List (Nat × Nat)) (q : Nat) :
    passTrace (a ++ b) q = passTrace a q ++ passTrace b q := by
  simp [passTrace, List.filter_append]

/-- Per-pass trace of the segment tagged with the same pass. -/
lemma passTrace_map_self (p : Nat) (l : List Nat) :
    passTrace (l.map (fun t => (p, t))) p = l := by
  simp [passTrace, List.filter_map]

/-- Per-pass trace of a segment tagged with a different pass. -/
lemma passTrace_map_ne (p q : Nat) (l : List Nat) (h : p ≠ q) :
    passTrace (l.map (fun t => (p, t))) q = [] := by
  simp [passTrace, List.filter_map, h]

/-- A trace all of whose tags exceed `q` contributes nothing to pass
`q`. -/
lemma passTrace_nil_of_tags (tr : List (Nat × Nat)) (q : Nat)
    (h : ∀ e ∈ tr, q < e.1) : passTrace tr q = [] := by
  induction tr with
  | nil => rfl
  | cons x xs ih =>
    have hx : q < x.1 := h x (by simp)
    have hne : (x.1 == q) = false := by
      simp only [beq_eq_false_iff_ne]
      omega
    simp only [passTrace, List.filter_cons, hne, if_neg]
    exact ih (fun e he => h e (by simp [he]))

/-- Every invocation recorded by `runPassLoop pipes p fuel` belongs to a
pass at or after `p`. -/
lemma runPassLoop_tags (pipes : Nat → Nat → EncResult) :
    ∀ fuel p e, e ∈ (runPassLoop pipes p fuel).1 → p ≤ e.1 := by
  intro fuel
  induction fuel with
  | zero => intro p e he; simp [runPassLoop] at he
  | succ n ih =>
    intro p e he
    rcases hres : (runPassTries (pipes p) 1 MAX_TRIES).2 with o | u
    · rw [runPassLoop_succ_err pipes p n o hres] at he
      simp only [List.mem_map] at he
      obtain ⟨t, _, rfl⟩ := he
      exact Nat.le_refl p
    · cases u
      rw [runPassLoop_succ_ok pipes p n hres] at he
      simp only [List.mem_append, List.mem_map] at he
      rcases he with ⟨t, _, rfl⟩ | hrest
      · exact Nat.le_refl p
      · exact Nat.le_of_succ_le (ih (p + 1) e hrest)

/-- If every pass from `p` up to (but excluding) `q` succeeds within its
retry budget, the loop reaches pass `q` and runs its retry loop with a
fresh full budget: the invocations attributed to `q` are exactly those
of `runPassTries` for `q`. -/
lemma runPassLoop_reach (pipes : Nat → Nat → EncResult) :
    ∀ fuel p q, p ≤ q → q < p + fuel →
      (∀ r, p ≤ r → r < q → passOkB (pipes r) = true) →
      passTrace (runPassLoop pipes p fuel).1 q = (runPassTries (pipes q) 1 MAX_TRIES).1 := by
  intro fuel
  induction fuel with
  | zero => intro p q hpq hlt; omega
  | succ n ih =>
    intro p q hpq hlt hprev
    rcases Nat.eq_or_lt_of_le hpq with rfl | hplt
    · rcases hres : (runPassTries (pipes p) 1 MAX_TRIES).2 with o | u
      · rw [runPassLoop_succ_err pipes p n o hres]
        exact passTrace_map_self p _
      · cases u
        rw [runPassLoop_succ_ok pipes p n hres, passTrace_append, passTrace_map_self p _,
          passTrace_nil_of_tags (runPassLoop pipes (p + 1) n).1 p
            (fun e he => runPassLoop_tags pipes n (p + 1) e he),
          List.append_nil]
    · have hpok : passOkB (pipes p) = true := hprev p (Nat.le_refl p) hplt
      have hres : (runPassTries (pipes p) 1 MAX_TRIES).2 = Except.ok () :=
        resOk_true _ hpok
      rw [runPassLoop_succ_ok pipes p n hres, passTrace_append,
        passTrace_map_ne p q _ (by omega)]
      rw [List.nil_append]
      exact ih (p + 1) q hplt (by omega)
        (fun r hr1 hr2 => hprev r (by omega) hr2)

/-- If every pass from `p` up to `q` succeeds but pass `q` exhausts its
budget, the whole loop propagates the retry-loop failure of pass `q` and
attempts no later pass. -/
lemma runPassLoop_err (pipes : Nat → Nat → EncResult) :
    ∀ fuel p q, p ≤ q → q < p + fuel →
      (∀ r, p ≤ r → r < q → passOkB (pipes r) = true) →
      passOkB (pipes q) = false →
      (runPassLoop pipes p fuel).2 = (runPassTries (pipes q) 1 MAX_TRIES).2
      ∧ ∀ s, q < s → passTrace (runPassLoop pipes p fuel).1 s = [] := by
  intro fuel
  induction fuel with
  | zero => intro p q hpq hlt; omega
  | succ n ih =>
    intro p q hpq hlt hprev hfail
    rcases Nat.eq_or_lt_of_le hpq with rfl | hplt
    · obtain ⟨o, ho⟩ := resOk_false _ hfail
      rw [runPassLoop_succ_err pipes p n o ho, ho]
      refine ⟨rfl, fun s hs => ?_⟩
      exact passTrace_map_ne p s _ (by omega)
    · have hpok : passOkB (pipes p) = true := hprev p (Nat.le_refl p) hplt
      have hres : (runPassTries (pipes p) 1 MAX_TRIES).2 = Except.ok () :=
        resOk_true _ hpok
      rw [runPassLoop_succ_ok pipes p n hres]
      obtain ⟨hres2, htr⟩ := ih (p + 1) q hplt (by omega)
        (fun r hr1 hr2 => hprev r (by omega) hr2) hfail
      refine ⟨hres2, fun s hs => ?_⟩
      rw [passTrace_append, passTrace_map_ne p s _ (by omega), List.nil_append]
      exact htr s hs

/-- If every pass in the window succeeds within budget, the loop
succeeds. -/
lemma runPassLoop_ok (pipes : Nat → Nat → EncResult) :
    ∀ fuel p, (∀ r, p ≤ r → r < p + fuel → passOkB (pipes r) = true) →
      resOk (runPassLoop pipes p fuel).2 = true := by
  intro fuel
  induction fuel with
  | zero => intro p hall; simp [runPassLoop, resOk]
  | succ n ih =>
    intro p hall
    have hres : (runPassTries (pipes p) 1 MAX_TRIES).2 = Except.ok () :=
      resOk_true _ (hall p (Nat.le_refl p) (by omega))
    rw [runPassLoop_succ_ok pipes p n hres]
    exact ih (p + 1) (fun r hr1 hr2 => hall r (by omega) (by omega))

/-- The loop fails exactly when some pass in its window exhausts the
retry budget with all earlier passes succeeding. -/
lemma runPassLoop_err_iff (pipes : Nat → Nat → EncResult) :
    ∀ fuel p, resOk (runPassLoop pipes p fuel).2 = false ↔
      ∃ q, p ≤ q ∧ q < p + fuel
        ∧ (∀ r, p ≤ r → r < q → passOkB (pipes r) = true)
        ∧ passOkB (pipes q) = false := by
  intro fuel
  induction fuel with
  | zero =>
    intro p
    constructor
    · intro h; simp [runPassLoop, resOk] at h
    · rintro ⟨q, hq1, hq2, -, -⟩; omega
  | succ n ih =>
    intro p
    cases hp : passOkB (pipes p) with
    | false =>
      obtain ⟨o, ho⟩ := resOk_false _ hp
      rw [runPassLoop_succ_err pipes p n o ho]
      simp only [resOk]
      constructor
      · intro _
        exact ⟨p, Nat.le_refl p, by omega, fun r hr1 hr2 => by omega, hp⟩
      · intro _; trivial
    | true =>
      have hres : (runPassTries (pipes p) 1 MAX_TRIES).2 = Except.ok () :=
        resOk_true _ hp
      rw [runPassLoop_succ_ok pipes p n hres]
      rw [ih (p + 1)]
      constructor
      · rintro ⟨q, hq1, hq2, hqprev, hqfail⟩
        exact ⟨q, by omega, by omega,
          fun r hr1 hr2 => if hrp : r = p then hrp ▸ hp else hqprev r (by omega) hr2, hqfail⟩
      · rintro ⟨q, hq1, hq2, hqprev, hqfail⟩
        have hqp : p ≠ q := by
          intro h; rw [← h] at hqfail; rw [hp] at hqfail; exact Bool.noConfusion hqfail
        exact ⟨q, by omega, by omega, fun r hr1 hr2 => hqprev r (by omega) hr2, hqfail⟩

/-- No pass ever receives more than `MAX_TRIES` invocations in a full
loop run. -/
lemma passTrace_len_le (pipes : Nat → Nat → EncResult) :
    ∀ fuel p q, (passTrace (runPassLoop pipes p fuel).1 q).length ≤ MAX_TRIES := by
  intro fuel
  induction fuel with
  | zero => intro p q; simp [runPassLoop, passTrace, MAX_TRIES]
  | succ n ih =>
    intro p q
    have hseg : (passTrace ((runPassTries (pipes p) 1 MAX_TRIES).1.map
        (fun t => (p, t))) q).length ≤ MAX_TRIES := by
      by_cases hpq : p = q
      · subst hpq
        rw [passTrace_map_self]
        exact runPassTries_len (pipes p) MAX_TRIES 1
      · rw [passTrace_map_ne p q _ hpq]
        simp [MAX_TRIES]
    rcases hres : (runPassTries (pipes p) 1 MAX_TRIES).2 with o | u
    · rw [runPassLoop_succ_err pipes p n o hres]
      exact hseg
    · cases u
      rw [runPassLoop_succ_ok pipes p n hres, passTrace_append]
      by_cases hpq : p = q
      · subst hpq
        rw [passTrace_nil_of_tags (runPassLoop pipes (p + 1) n).1 p
          (fun e he => runPassLoop_tags pipes n (p + 1) e he), List.append_nil]
        exact hseg
      · rw [passTrace_map_ne p q _ hpq, List.nil_append]
        exact ih (p + 1) q

end PassLoopLemmas

section PipelineLemmas

/-- The value returned by `encode_chunk` is exactly the outcome of its
pass loop: the verification branch never changes the `Result`. -/
lemma encode_chunk_result (st : DoneState) (total_cores workers : Nat) (c : Chunk)
    (passes : Nat) (pipes : Nat → Nat → EncResult) (oracleFrames worker_id : Nat) :
    (encode_chunk st total_cores workers c passes pipes oracleFrames worker_id).result
      = (runAllPasses pipes passes).2 := by
  unfold encode_chunk
  rcases h : (runAllPasses pipes passes).2 with o | u
  · simp [h]
  · cases u
    by_cases ho : frame_check_output oracleFrames c.frames = c.frames <;> simp [h, ho]

/-- Unfolding of `encode_chunk` when the pass loop succeeds and the
oracle count disagrees with the expected frame count: the checkpoint
state is left untouched and the pipeline still reports success. -/
lemma encode_chunk_mismatch (st : DoneState) (total_cores workers : Nat) (c : Chunk)
    (passes : Nat) (pipes : Nat → Nat → EncResult) (oracleFrames worker_id : Nat)
    (hok : (runAllPasses pipes passes).2 = Except.ok ())
    (hne : oracleFrames ≠ c.frames) :
    encode_chunk st total_cores workers c passes pipes oracleFrames worker_id
      = { state := st, result := Except.ok (),
          events := BrokerEvent.setAffinity (affinityCores total_cores workers worker_id)
            :: (runAllPasses pipes passes).1.map (fun e => BrokerEvent.encodeCall e.1 e.2) } := by
  unfold encode_chunk
  simp [hok, frame_check_output, hne]

/-- Unfolding of `encode_chunk` when the pass loop succeeds and the
oracle count matches: the done-map gains the entry and the file is
rewritten with the whole updated map. -/
lemma encode_chunk_match (st : DoneState) (total_cores workers : Nat) (c : Chunk)
    (passes : Nat) (pipes : Nat → Nat → EncResult) (oracleFrames worker_id : Nat)
    (hok : (runAllPasses pipes passes).2 = Except.ok ())
    (heq : oracleFrames = c.frames) :
    encode_chunk st total_cores workers c passes pipes oracleFrames worker_id
      = { state := { done := insertDone st.done c.name oracleFrames,
                     fileOnDisk := some (insertDone st.done c.name oracleFrames) },
          result := Except.ok (),
          events := BrokerEvent.setAffinity (affinityCores total_cores workers worker_id)
            :: ((runAllPasses pipes passes).1.map (fun e => BrokerEvent.encodeCall e.1 e.2)
              ++ [BrokerEvent.checkpointWrite c.name oracleFrames]) } := by
  unfold encode_chunk
  simp [hok, frame_check_output, heq]

/-- Unfolding of `encode_chunk` when the pass loop fails: state is
untouched and the error is propagated. -/
lemma encode_chunk_err (st : DoneState) (total_cores workers : Nat) (c : Chunk)
    (passes : Nat) (pipes : Nat → Nat → EncResult) (oracleFrames worker_id : Nat)
    (o : String) (herr : (runAllPasses pipes passes).2 = Except.error o) :
    encode_chunk st total_cores workers c passes pipes oracleFrames worker_id
      = { state := st, result := Except.error o,
          events := BrokerEvent.setAffinity (affinityCores total_cores workers worker_id)
            :: (runAllPasses pipes passes).1.map (fun e => BrokerEvent.encodeCall e.1 e.2) } := by
  unfold encode_chunk
  simp [herr]

/-- Inserting an entry makes it the binding found by lookup. -/
lemma lookupDone_insert (m : List (String × Nat)) (k : String) (v : Nat) :
    lookupDone (insertDone m k v) k = some v := by
  simp [lookupDone, insertDone, List.find?]

/-- One run of `encode_chunk` applies the CPU affinity mask exactly
once. -/
lemma encode_chunk_affinity_once (st : DoneState) (total_cores workers : Nat) (c : Chunk)
    (passes : Nat) (pipes : Nat → Nat → EncResult) (oracleFrames worker_id : Nat) :
    countAffinity (encode_chunk st total_cores workers c passes pipes oracleFrames worker_id).events
      = 1 := by
  have hmap : ∀ l : List (Nat × Nat),
      (l.map (fun e => BrokerEvent.encodeCall e.1 e.2)).filter isSetAffinity = [] := by
    intro l
    rw [List.filter_eq_nil_iff]
    intro a ha
    simp only [List.mem_map] at ha
    obtain ⟨e, -, rfl⟩ := ha
    simp [isSetAffinity]
  unfold encode_chunk
  rcases h : (runAllPasses pipes passes).2 with o | u
  · simp [h, countAffinity, List.filter_cons, isSetAffinity, hmap]
  · cases u
    by_cases ho : frame_check_output oracleFrames c.frames = c.frames <;>
      simp [h, ho, countAffinity, List.filter_cons, List.filter_append, isSetAffinity, hmap]

/-- The event trace of one `encode_chunk` run starts with the affinity
application, before any encode invocation or checkpoint write. -/
lemma encode_chunk_affinity_first (st : DoneState) (total_cores workers : Nat) (c : Chunk)
    (passes : Nat) (pipes : Nat → Nat → EncResult) (oracleFrames worker_id : Nat) :
    (encode_chunk st total_cores workers c passes pipes oracleFrames worker_id).events.head?
      = some (BrokerEvent.setAffinity (affinityCores total_cores workers worker_id)) := by
  unfold encode_chunk
  rcases h : (runAllPasses pipes passes).2 with o | u
  · simp [h]
  · cases u
    by_cases ho : frame_check_output oracleFrames c.frames = c.frames <;> simp [h, ho]

/-- A worker sends at most one failure signal over the whole loop. -/
lemma worker_loop_signals_le (enc : DoneState → Chunk → ChunkRunResult) :
    ∀ chunks st, (worker_loop enc st chunks).signalsSent ≤ 1 := by
  intro chunks
  induction chunks with
  | nil => intro st; simp [worker_loop]
  | cons c rest ih =>
    intro st
    unfold worker_loop
    rcases h : (enc st c).result with o | u
    · simp [h]
    · simpa [h] using ih (enc st c).state

/-- Number of affinity applications over a worker loop equals the number
of chunks the worker actually processed, provided the per-chunk pipeline
applies affinity exactly once per run. -/
lemma worker_loop_affinity_count (enc : DoneState → Chunk → ChunkRunResult)
    (henc : ∀ s ch, countAffinity (enc s ch).events = 1) :
    ∀ chunks st, countAffinity (worker_loop enc st chunks).events
      = (worker_loop enc st chunks).processed := by
  intro chunks
  induction chunks with
  | nil => intro st; simp [worker_loop, countAffinity]
  | cons c rest ih =>
    intro st
    unfold worker_loop
    rcases h : (enc st c).result with o | u
    · simpa [h] using henc st c
    · have h1 := henc st c
      have h2 := ih (enc st c).state
      simp only [h, countAffinity, List.filter_append, List.length_append] at *
      omega

end PipelineLemmas

section AffinityLemmas

/-- The per-worker core count of the source is exactly the ceiling of
`total_cores / workers`: it is the least `m` with
`total_cores ≤ m * workers`. -/
lemma cores_per_worker_is_ceil (t w : Nat) (hw : 1 ≤ w) :
    t ≤ cores_per_worker t w * w
    ∧ ∀ m, t ≤ m * w → cores_per_worker t w ≤ m := by
  have hw0 : 0 < w := hw
  constructor
  · have h1 : (t + w - 1) / w < cores_per_worker t w + 1 :=
      Nat.lt_succ_of_le (Nat.le_refl _)
    have h2 : t + w - 1 < (cores_per_worker t w + 1) * w :=
      (Nat.div_lt_iff_lt_mul hw0).mp h1
    have h3 : (cores_per_worker t w + 1) * w = cores_per_worker t w * w + w := by
      rw [Nat.add_mul, Nat.one_mul]
    omega
  · intro m hm
    have h1 : t + w - 1 < (m + 1) * w := by
      have : (m + 1) * w = m * w + w := by rw [Nat.add_mul, Nat.one_mul]
      omega
    have h2 : (t + w - 1) / w < m + 1 := (Nat.div_lt_iff_lt_mul hw0).mpr h1
    exact Nat.lt_succ_iff.mp h2

/-- The CPU set built by the source loop equals the set the spec
describes: the image of the raw window under reduction modulo the worker
count. -/
lemma cpuSetFor_eq_spec (t w id : Nat) :
    cpuSetFor t w id = specAffinitySet t w id := by
  ext x
  simp only [cpuSetFor, affinityCores, specAffinitySet, List.mem_toFinset, List.mem_map,
    Finset.mem_image, Finset.mem_Ico]
  constructor
  · rintro ⟨i, hi, rfl⟩
    rw [List.mem_range'_1] at hi
    exact ⟨i, ⟨hi.1, hi.2⟩, rfl⟩
  · rintro ⟨i, hi, rfl⟩
    refine ⟨i, ?_, rfl⟩
    rw [List.mem_range'_1]
    exact ⟨hi.1, hi.2⟩

/-- Every core index in the planner output is the remainder of a raw
index modulo the worker count, hence below the worker count. -/
lemma cpuSetFor_lt_workers (t w id x : Nat) (hw : 1 ≤ w)
    (hx : x ∈ cpuSetFor t w id) : x < w := by
  simp only [cpuSetFor, affinityCores, List.mem_toFinset, List.mem_map] at hx
  obtain ⟨i, -, rfl⟩ := hx
  exact Nat.mod_lt i hw

end AffinityLemmas

/-- C1: for every chunk and every pass number in `1..=passes`, the
pipeline invokes the encode collaborator at most 3 times for that pass;
once the loop reaches pass `p` (all earlier passes having succeeded in
budget), an always-failing collaborator causes exactly 3 invocations for
pass `p`, the pipeline then reports the failure carrying the last
captured output as the error payload and attempts no further pass, while
a collaborator first succeeding on attempt `k ≤ 3` causes exactly `k`
invocations for pass `p` and the next pass (when there is one) runs with
a fresh 3-attempt budget. -/
theorem c1_retry_bound (pipes : Nat → Nat → EncResult) (passes p : Nat)
    (hp1 : 1 ≤ p) (hp2 : p ≤ passes) :
    (passTrace (runAllPasses pipes passes).1 p).length ≤ MAX_TRIES
    ∧ ((∀ q, 1 ≤ q → q < p → passOkB (pipes q) = true) →
        ((∀ t, 1 ≤ t → t ≤ MAX_TRIES → isOkE (pipes p t) = false) →
          (passTrace (runAllPasses pipes passes).1 p).length = 3
          ∧ (runAllPasses pipes passes).2 = Except.error (errOutput (pipes p 3))
          ∧ ∀ q, p < q → passTrace (runAllPasses pipes passes).1 q = [])
        ∧ (∀ k, 1 ≤ k → k ≤ MAX_TRIES →
            (∀ t, 1 ≤ t → t < k → isOkE (pipes p t) = false) →
            isOkE (pipes p k) = true →
            (passTrace (runAllPasses pipes passes).1 p).length = k
            ∧ (p < passes →
                passTrace (runAllPasses pipes passes).1 (p + 1)
                  = (runPassTries (pipes (p + 1)) 1 MAX_TRIES).1))) := by
  unfold runAllPasses
  refine ⟨passTrace_len_le pipes passes 1 p, fun hprev => ⟨?_, ?_⟩⟩
  · intro hall
    have htries := runPass_allFail (pipes p) hall
    have hreach := runPassLoop_reach pipes passes 1 p hp1 (by omega) hprev
    have hfail : passOkB (pipes p) = false := by
      rw [passOkB, htries]
      rfl
    obtain ⟨hres, htr⟩ := runPassLoop_err pipes passes 1 p hp1 (by omega) hprev hfail
    refine ⟨?_, ?_, htr⟩
    · rw [hreach, htries]
      rfl
    · rw [hres, htries]
  · intro k hk1 hk3 hbef hks
    obtain ⟨hlen, hok⟩ := runPass_firstSuccess (pipes p) k hk1 hk3 hbef hks
    have hreach := runPassLoop_reach pipes passes 1 p hp1 (by omega) hprev
    refine ⟨by rw [hreach]; exact hlen, fun hlt => ?_⟩
    have hprev2 : ∀ r, 1 ≤ r → r < p + 1 → passOkB (pipes r) = true := by
      intro r h1 h2
      by_cases hrp : r = p
      · rw [hrp]; exact hok
      · exact hprev r h1 (by omega)
    exact runPassLoop_reach pipes passes 1 (p + 1) (by omega) (by omega) hprev2

/-- Witness for c1_retry_bound at a concrete collaborator that fails
once and then succeeds, two passes, pass 1. -/
theorem c1_retry_bound_witness :
    (1 ≤ 1 ∧ 1 ≤ 2)
    ∧ (passTrace (runAllPasses
        (fun _ t => if t = 2 then EncResult.ok else EncResult.err 1 "x") 2).1 1).length
      ≤ MAX_TRIES :=
  ⟨⟨by decide, by decide⟩,
    (c1_retry_bound (fun _ t => if t = 2 then EncResult.ok else EncResult.err 1 "x") 2 1
      (by decide) (by decide)).1⟩

/-- C2: the affinity planner deterministically produces the set
described by the specification formula: the image of the raw window
`[worker_id * cpw, worker_id * cpw + cpw)` under `i mod workers`, where
`cpw` is the ceiling of `total_cores / workers` (characterised as the
least `m` with `total_cores ≤ m * workers`); in particular, with 16
cores and 8 workers, worker 0 receives cores 0 and 1 and worker 7
receives cores 6 and 7. -/
theorem c2_affinity_planner (total_cores workers worker_id : Nat)
    (ht : 1 ≤ total_cores) (hw : 1 ≤ workers) (hid : worker_id < workers) :
    cpuSetFor total_cores workers worker_id = specAffinitySet total_cores workers worker_id
    ∧ (total_cores ≤ cores_per_worker total_cores workers * workers
        ∧ ∀ m, total_cores ≤ m * workers → cores_per_worker total_cores workers ≤ m)
    ∧ cpuSetFor 16 8 0 = {0, 1}
    ∧ cpuSetFor 16 8 7 = {6, 7} :=
  ⟨cpuSetFor_eq_spec total_cores workers worker_id,
    cores_per_worker_is_ceil total_cores workers hw, by decide, by decide⟩

/-- Witness for c2_affinity_planner at 16 cores, 8 workers, worker 0. -/
theorem c2_affinity_planner_witness :
    (1 ≤ 16 ∧ 1 ≤ 8 ∧ 0 < 8)
    ∧ cpuSetFor 16 8 0 = specAffinitySet 16 8 0 :=
  ⟨⟨by decide, by decide, by decide⟩,
    (c2_affinity_planner 16 8 0 (by decide) (by decide) (by decide)).1⟩

/-- C3: when the pass loop succeeds but the frame-count oracle disagrees
with the expected count, no checkpoint entry is inserted and the file is
not rewritten (the whole checkpoint state is untouched), yet the
pipeline returns success, so the worker loop continues with the next
chunk. -/
theorem c3_mismatch_withholding (st : DoneState) (total_cores workers : Nat) (c : Chunk)
    (passes : Nat) (pipes : Nat → Nat → EncResult) (oracleFrames worker_id : Nat)
    (hok : (runAllPasses pipes passes).2 = Except.ok ())
    (hne : oracleFrames ≠ c.frames) :
    (encode_chunk st total_cores workers c passes pipes oracleFrames worker_id).state = st
    ∧ (encode_chunk st total_cores workers c passes pipes oracleFrames worker_id).result
        = Except.ok ()
    ∧ ∀ (enc : DoneState → Chunk → ChunkRunResult) (wst : DoneState) (w : Chunk)
        (rest : List Chunk),
        resOk (enc wst w).result = true →
        (worker_loop enc wst (w :: rest)).processed
          = (worker_loop enc (enc wst w).state rest).processed + 1 := by
  rw [encode_chunk_mismatch st total_cores workers c passes pipes oracleFrames worker_id hok hne]
  refine ⟨rfl, rfl, ?_⟩
  intro enc wst w rest henc
  have hres := resOk_true _ henc
  simp only [worker_loop]
  simp [hres]

/-- Witness for c3_mismatch_withholding: one pass that succeeds, oracle
returns 4 frames where 5 were expected. -/
theorem c3_mismatch_withholding_witness :
    ((runAllPasses (fun _ _ => EncResult.ok) 1).2 = Except.ok () ∧ (4 : Nat) ≠ 5)
    ∧ (encode_chunk ⟨[], none⟩ 8 4 ⟨0, 5, "c0"⟩ 1 (fun _ _ => EncResult.ok) 4 0).state
        = ⟨[], none⟩ :=
  ⟨⟨by decide, by decide⟩,
    (c3_mismatch_withholding ⟨[], none⟩ 8 4 ⟨0, 5, "c0"⟩ 1 (fun _ _ => EncResult.ok) 4 0
      (by decide) (by decide)).1⟩

/-- C4: a checkpoint entry is written only if the oracle count equals
the expected count (otherwise the state is untouched); and on a match
the store maps the chunk name to the verified count, the whole updated
store is written to the file, and reloading the file reproduces the
entry exactly. -/
theorem c4_checkpoint_invariant (st : DoneState) (total_cores workers : Nat) (c : Chunk)
    (passes : Nat) (pipes : Nat → Nat → EncResult) (oracleFrames worker_id : Nat)
    (hok : (runAllPasses pipes passes).2 = Except.ok ()) :
    (oracleFrames ≠ c.frames →
      (encode_chunk st total_cores workers c passes pipes oracleFrames worker_id).state = st)
    ∧ (oracleFrames = c.frames →
        lookupDone
            (encode_chunk st total_cores workers c passes pipes oracleFrames worker_id).state.done
            c.name
          = some oracleFrames
        ∧ (encode_chunk st total_cores workers c passes pipes oracleFrames worker_id).state.fileOnDisk
          = some (encode_chunk st total_cores workers c passes pipes oracleFrames worker_id).state.done
        ∧ ∃ m, (encode_chunk st total_cores workers c passes pipes oracleFrames worker_id).state.fileOnDisk
              = some m
            ∧ lookupDone m c.name = some oracleFrames) := by
  constructor
  · intro hne
    rw [encode_chunk_mismatch st total_cores workers c passes pipes oracleFrames worker_id hok hne]
  · intro heq
    rw [encode_chunk_match st total_cores workers c passes pipes oracleFrames worker_id hok heq]
    exact ⟨lookupDone_insert st.done c.name oracleFrames, rfl,
      insertDone st.done c.name oracleFrames, rfl,
      lookupDone_insert st.done c.name oracleFrames⟩

/-- Witness for c4_checkpoint_invariant: one succeeding pass, oracle
matches the 5 expected frames, entry is retrievable. -/
theorem c4_checkpoint_invariant_witness :
    (runAllPasses (fun _ _ => EncResult.ok) 1).2 = Except.ok ()
    ∧ lookupDone
        (encode_chunk ⟨[], none⟩ 8 4 ⟨0, 5, "c0"⟩ 1 (fun _ _ => EncResult.ok) 5 0).state.done
        "c0"
      = some 5 :=
  ⟨by decide,
    ((c4_checkpoint_invariant ⟨[], none⟩ 8 4 ⟨0, 5, "c0"⟩ 1 (fun _ _ => EncResult.ok) 5 0
      (by decide)).2 rfl).1⟩

/-- C5: the pipeline reports an error exactly when some pass exhausts
all three encode attempts with every earlier pass succeeding (all other
paths, verification mismatch included, return success); on receiving
such an error the worker sends exactly one failure signal and stops its
receive loop, leaving the remaining queued chunks untouched; a worker
never sends more than one signal. -/
theorem c5_failure_propagation (st : DoneState) (total_cores workers : Nat) (c : Chunk)
    (passes : Nat) (pipes : Nat → Nat → EncResult) (oracleFrames worker_id : Nat)
    (enc : DoneState → Chunk → ChunkRunResult) (wst : DoneState) (w : Chunk)
    (rest chunks : List Chunk)
    (hfail : resOk (enc wst w).result = false) :
    (resOk (encode_chunk st total_cores workers c passes pipes oracleFrames worker_id).result
        = false
      ↔ ∃ p, 1 ≤ p ∧ p ≤ passes
          ∧ (∀ q, 1 ≤ q → q < p → passOkB (pipes q) = true)
          ∧ isOkE (pipes p 1) = false ∧ isOkE (pipes p 2) = false ∧ isOkE (pipes p 3) = false)
    ∧ worker_loop enc wst (w :: rest)
        = { state := (enc wst w).state, signalsSent := 1, events := (enc wst w).events,
            leftover := rest, processed := 1 }
    ∧ (worker_loop enc wst chunks).signalsSent ≤ 1 := by
  refine ⟨?_, ?_, worker_loop_signals_le enc chunks wst⟩
  · rw [encode_chunk_result]
    unfold runAllPasses
    rw [runPassLoop_err_iff pipes passes 1]
    constructor
    · rintro ⟨q, hq1, hq2, hprev, hfailq⟩
      rw [passOkB_false_iff] at hfailq
      exact ⟨q, hq1, by omega, hprev, hfailq.1, hfailq.2.1, hfailq.2.2⟩
    · rintro ⟨p, hp1, hp2, hprev, h1, h2, h3⟩
      exact ⟨p, hp1, by omega, hprev, (passOkB_false_iff (pipes p)).mpr ⟨h1, h2, h3⟩⟩
  · obtain ⟨o, ho⟩ := resOk_false _ hfail
    unfold worker_loop
    simp [ho]

/-- Witness for c5_failure_propagation: a pipeline whose collaborator
always fails makes the worker send exactly one signal and stop with the
rest of the queue intact. -/
theorem c5_failure_propagation_witness :
    resOk ((fun (s : DoneState) (ch : Chunk) =>
        encode_chunk s 8 4 ch 1 (fun _ _ => EncResult.err 1 "x") 5 0) ⟨[], none⟩
        ⟨0, 5, "c0"⟩).result = false
    ∧ worker_loop
        (fun (s : DoneState) (ch : Chunk) =>
          encode_chunk s 8 4 ch 1 (fun _ _ => EncResult.err 1 "x") 5 0)
        ⟨[], none⟩ [⟨0, 5, "c0"⟩, ⟨1, 6, "c1"⟩]
      = { state := (encode_chunk ⟨[], none⟩ 8 4 ⟨0, 5, "c0"⟩ 1
            (fun _ _ => EncResult.err 1 "x") 5 0).state,
          signalsSent := 1,
          events := (encode_chunk ⟨[], none⟩ 8 4 ⟨0, 5, "c0"⟩ 1
            (fun _ _ => EncResult.err 1 "x") 5 0).events,
          leftover := [⟨1, 6, "c1"⟩], processed := 1 } :=
  ⟨by decide,
    (c5_failure_propagation ⟨[], none⟩ 8 4 ⟨0, 5, "c0"⟩ 1 (fun _ _ => EncResult.err 1 "x") 5 0
      (fun s ch => encode_chunk s 8 4 ch 1 (fun _ _ => EncResult.err 1 "x") 5 0)
      ⟨[], none⟩ ⟨0, 5, "c0"⟩ [⟨1, 6, "c1"⟩] [] (by decide)).2.1⟩

/-- C6: with an empty chunk queue `encoding_loop` does nothing: no
channel is created, no worker thread is spawned, and no progress-finish
notification of either kind is triggered. -/
theorem c6_empty_queue_noop (workers : Nat) (verbosity : Verbosity) :
    encoding_loop [] workers verbosity
      = { channelCreated := false, workersSpawned := 0, finish := ProgressFinish.noFinish } :=
  rfl

/-- C7 counterexample: a worker that processes two chunks applies its
CPU affinity mask twice, not exactly once at worker startup — the source
sets affinity at the start of `encode_chunk`, i.e. once per chunk. -/
theorem c7_counterexample :
    countAffinity (worker_loop
        (fun (s : DoneState) (ch : Chunk) =>
          encode_chunk s 8 4 ch 1 (fun _ _ => EncResult.ok) 5 0)
        ⟨[], none⟩ [⟨0, 5, "c0"⟩, ⟨1, 5, "c1"⟩]).events = 2
    ∧ (2 : Nat) ≠ 1 := by
  constructor
  · decide
  · decide

/-- C7 amended: each run of the chunk pipeline applies the worker's CPU
affinity mask exactly once, as its first observable action (before any
encode invocation), and over a worker's whole loop the mask is applied
once per chunk processed — the mask itself being the same deterministic
set on every application for fixed total cores, worker count and worker
id. -/
theorem c7_affinity_per_chunk (st : DoneState) (total_cores workers : Nat) (c : Chunk)
    (passes : Nat) (pipes : Nat → Nat → EncResult) (oracleFrames worker_id : Nat)
    (enc : DoneState → Chunk → ChunkRunResult) (wst : DoneState) (chunks : List Chunk)
    (henc : ∀ s ch, countAffinity (enc s ch).events = 1) :
    (encode_chunk st total_cores workers c passes pipes oracleFrames worker_id).events.head?
      = some (BrokerEvent.setAffinity (affinityCores total_cores workers worker_id))
    ∧ countAffinity
        (encode_chunk st total_cores workers c passes pipes oracleFrames worker_id).events = 1
    ∧ countAffinity (worker_loop enc wst chunks).events = (worker_loop enc wst chunks).processed :=
  ⟨encode_chunk_affinity_first st total_cores workers c passes pipes oracleFrames worker_id,
    encode_chunk_affinity_once st total_cores workers c passes pipes oracleFrames worker_id,
    worker_loop_affinity_count enc henc chunks wst⟩

/-- Witness for c7_affinity_per_chunk at a concrete pipeline and a
one-chunk queue. -/
theorem c7_affinity_per_chunk_witness :
    countAffinity (worker_loop
        (fun (s : DoneState) (ch : Chunk) =>
          encode_chunk s 8 4 ch 1 (fun _ _ => EncResult.ok) 5 0)
        ⟨[], none⟩ [⟨0, 5, "c0"⟩]).events
      = (worker_loop
          (fun (s : DoneState) (ch : Chunk) =>
            encode_chunk s 8 4 ch 1 (fun _ _ => EncResult.ok) 5 0)
          ⟨[], none⟩ [⟨0, 5, "c0"⟩]).processed :=
  (c7_affinity_per_chunk ⟨[], none⟩ 8 4 ⟨0, 5, "c0"⟩ 1 (fun _ _ => EncResult.ok) 5 0
    (fun s ch => encode_chunk s 8 4 ch 1 (fun _ _ => EncResult.ok) 5 0)
    ⟨[], none⟩ [⟨0, 5, "c0"⟩]
    (fun s ch => encode_chunk_affinity_once s 8 4 ch 1 (fun _ _ => EncResult.ok) 5 0)).2.2

/-- C9: every core index the planner puts in a worker's mask is strictly
below the configured worker count; consequently no core with index at or
above the worker count is ever assigned. -/
theorem c9_mask_below_worker_count (total_cores workers worker_id x : Nat)
    (hw : 1 ≤ workers) (hx : x ∈ cpuSetFor total_cores workers worker_id) :
    x < workers
    ∧ ∀ y, workers ≤ y → y ∉ cpuSetFor total_cores workers worker_id := by
  refine ⟨cpuSetFor_lt_workers total_cores workers worker_id x hw hx, fun y hy hmem => ?_⟩
  have := cpuSetFor_lt_workers total_cores workers worker_id y hw hmem
  omega

/-- Witness for c9_mask_below_worker_count: core 0 of worker 0 with 16
cores and 8 workers. -/
theorem c9_mask_below_worker_count_witness :
    (1 ≤ 8 ∧ (0 : Nat) ∈ cpuSetFor 16 8 0) ∧ (0 : Nat) < 8 :=
  ⟨⟨by decide, by decide⟩,
    (c9_mask_below_worker_count 16 8 0 0 (by decide) (by decide)).1⟩

/-- C10: with a configured pass count of 0 the loop `1..=0` is empty, so
the pipeline invokes the encode collaborator zero times, proceeds
straight to verification and returns success; if the oracle count
happens to match the expected count the never-encoded chunk is recorded
as done and persisted. -/
theorem c10_zero_passes (st : DoneState) (total_cores workers : Nat) (c : Chunk)
    (pipes : Nat → Nat → EncResult) (oracleFrames worker_id : Nat) :
    (runAllPasses pipes 0).1 = []
    ∧ (encode_chunk st total_cores workers c 0 pipes oracleFrames worker_id).events.filter
        isEncodeCall = []
    ∧ resOk (encode_chunk st total_cores workers c 0 pipes oracleFrames worker_id).result = true
    ∧ (oracleFrames = c.frames →
        lookupDone
            (encode_chunk st total_cores workers c 0 pipes oracleFrames worker_id).state.done
            c.name
          = some oracleFrames
        ∧ (encode_chunk st total_cores workers c 0 pipes oracleFrames worker_id).state.fileOnDisk
          = some (encode_chunk st total_cores workers c 0 pipes oracleFrames worker_id).state.done) := by
  have hok : (runAllPasses pipes 0).2 = Except.ok () := rfl
  by_cases ho : oracleFrames = c.frames
  · rw [encode_chunk_match st total_cores workers c 0 pipes oracleFrames worker_id hok ho]
    exact ⟨rfl, rfl, rfl, fun _ =>
      ⟨lookupDone_insert st.done c.name oracleFrames, rfl⟩⟩
  · rw [encode_chunk_mismatch st total_cores workers c 0 pipes oracleFrames worker_id hok ho]
    exact ⟨rfl, rfl, rfl, fun h => absurd h ho⟩

/-- Witness for c10_zero_passes: zero passes, oracle matches 5 expected
frames, entry recorded. -/
theorem c10_zero_passes_witness :
    (runAllPasses (fun _ _ => EncResult.err 1 "x") 0).1 = []
    ∧ lookupDone
        (encode_chunk ⟨[], none⟩ 8 4 ⟨0, 5, "c0"⟩ 0 (fun _ _ => EncResult.err 1 "x") 5 0).state.done
        "c0"
      = some 5 :=
  ⟨(c10_zero_passes ⟨[], none⟩ 8 4 ⟨0, 5, "c0"⟩ (fun _ _ => EncResult.err 1 "x") 5 0).1,
    ((c10_zero_passes ⟨[], none⟩ 8 4 ⟨0, 5, "c0"⟩ (fun _ _ => EncResult.err 1 "x") 5 0).2.2.2
      rfl).1⟩

end Av1anBroker
